import Mathlib

/-!
Verification of the `gpui-component` command-palette core
(`crates/ui/src/command_palette/{matcher,state,types}.rs`).

The Rust code is shallowly embedded: pure functions become Lean
functions, the stateful `CommandPaletteState` becomes a structure with
explicit state-passing operations, and the two fuzzy-scoring back-ends
(`nucleo`'s `Pattern::indices` and `fuzzy_matcher`'s `fuzzy_indices`,
both external crates) are abstracted as a sub-match oracle of type
`String → String → Option (Int × List (Nat × Nat))`, exactly the shape
of the private `match_text` helpers.  Rust `i64` arithmetic is modelled
by `Int` (scores stay far from the overflow boundary) and Rust `i64`
division, which truncates toward zero, by `Int.tdiv`.  Rust `&str`
values are modelled by `String` (resp. their character list where the
code itself works on `chars()`), and `String::len` — a UTF-8 byte
count — by `String.utf8ByteSize`.
-/

namespace CommandPalette

/-- `CommandPaletteItem` (types.rs).  The fields that matching and
selection never read (`icon`, `shortcut`, `payload`) are omitted. -/
structure CommandPaletteItem where
  id : String
  title : String
  subtitle : Option String
  category : String
  keywords : List String
  disabled : Bool
deriving DecidableEq, Repr

/-- `CommandPaletteMatch` (types.rs): score plus byte-offset highlight
ranges for title and subtitle. -/
structure CommandPaletteMatch where
  score : Int
  title_ranges : List (Nat × Nat)
  subtitle_ranges : List (Nat × Nat)
deriving DecidableEq, Repr

def CommandPaletteMatch.new (score : Int) : CommandPaletteMatch :=
  { score := score, title_ranges := [], subtitle_ranges := [] }

def CommandPaletteMatch.with_title_ranges (m : CommandPaletteMatch)
    (ranges : List (Nat × Nat)) : CommandPaletteMatch :=
  { m with title_ranges := ranges }

def CommandPaletteMatch.with_subtitle_ranges (m : CommandPaletteMatch)
    (ranges : List (Nat × Nat)) : CommandPaletteMatch :=
  { m with subtitle_ranges := ranges }

/-- The result shape of the `match_text` helpers: a score and highlight
byte ranges. -/
abbrev SubMatch := Int × List (Nat × Nat)

/-- A sub-match oracle standing for a back-end's `match_text`
(query first, then the haystack text). -/
abbrev MatchTextFn := String → String → Option SubMatch

/-- Rust `Iterator::max_by_key` on `(score, ranges)` pairs keyed by the
score: of several equally maximal elements the last one wins. -/
def max_by_score (l : List SubMatch) : Option SubMatch :=
  l.foldl (fun acc x =>
    match acc with
    | none => some x
    | some a => if a.1 ≤ x.1 then some x else some a) none

/-- `NucleoMatcher::match_item` (matcher.rs lines 44–106), with the
call to `NucleoMatcher::match_text` abstracted as `match_text`. -/
def NucleoMatcher.match_item (match_text : MatchTextFn)
    (query : String) (item : CommandPaletteItem) : Option CommandPaletteMatch :=
  if query = "" then some (CommandPaletteMatch.new 0)
  else
    let title_match := match_text query item.title
    let subtitle_match := item.subtitle.bind (fun s => match_text query s)
    let keyword_match := max_by_score (item.keywords.filterMap (fun k => match_text query k))
    let category_match := match_text query item.category
    let best_score : Option Int := none
    let title_ranges : List (Nat × Nat) := []
    let subtitle_ranges : List (Nat × Nat) := []
    let bt : Option Int × List (Nat × Nat) :=
      match title_match with
      | none => (best_score, title_ranges)
      | some (score, ranges) => (some (score + 1000), ranges)
    let best_score := bt.1
    let title_ranges := bt.2
    let bs : Option Int × List (Nat × Nat) :=
      match subtitle_match with
      | none => (best_score, subtitle_ranges)
      | some (score, ranges) =>
        let adjusted := score + 500
        match best_score with
        | none => (some adjusted, ranges)
        | some s =>
          if adjusted > s then (some adjusted, ranges) else (best_score, subtitle_ranges)
    let best_score := bs.1
    let subtitle_ranges := bs.2
    let best_score :=
      match keyword_match with
      | none => best_score
      | some (score, _) =>
        let adjusted := score + 200
        match best_score with
        | none => some adjusted
        | some s => if adjusted > s then some adjusted else best_score
    let best_score :=
      match category_match with
      | none => best_score
      | some (score, _) =>
        match best_score with
        | none => none
        | some s => some (s + score.tdiv 10)
    best_score.map (fun score =>
      ((CommandPaletteMatch.new score).with_title_ranges title_ranges).with_subtitle_ranges
        subtitle_ranges)

/-- `FuzzyMatcherWrapper::match_item` (matcher.rs lines 148–199), with
the call to `FuzzyMatcherWrapper::match_text` abstracted as
`match_text`.  Unlike the Nucleo back-end it computes no category
sub-match at all. -/
def FuzzyMatcherWrapper.match_item (match_text : MatchTextFn)
    (query : String) (item : CommandPaletteItem) : Option CommandPaletteMatch :=
  if query = "" then some (CommandPaletteMatch.new 0)
  else
    let title_match := match_text query item.title
    let subtitle_match := item.subtitle.bind (fun s => match_text query s)
    let keyword_match := max_by_score (item.keywords.filterMap (fun k => match_text query k))
    let best_score : Option Int := none
    let title_ranges : List (Nat × Nat) := []
    let subtitle_ranges : List (Nat × Nat) := []
    let bt : Option Int × List (Nat × Nat) :=
      match title_match with
      | none => (best_score, title_ranges)
      | some (score, ranges) => (some (score + 1000), ranges)
    let best_score := bt.1
    let title_ranges := bt.2
    let bs : Option Int × List (Nat × Nat) :=
      match subtitle_match with
      | none => (best_score, subtitle_ranges)
      | some (score, ranges) =>
        let adjusted := score + 500
        match best_score with
        | none => (some adjusted, ranges)
        | some s =>
          if adjusted > s then (some adjusted, ranges) else (best_score, subtitle_ranges)
    let best_score := bs.1
    let subtitle_ranges := bs.2
    let best_score :=
      match keyword_match with
      | none => best_score
      | some (score, _) =>
        let adjusted := score + 200
        match best_score with
        | none => some adjusted
        | some s => if adjusted > s then some adjusted else best_score
    best_score.map (fun score =>
      ((CommandPaletteMatch.new score).with_title_ranges title_ranges).with_subtitle_ranges
        subtitle_ranges)

/-- The UTF-8 encoding of a text, the text taken as its character
sequence (Rust `&str` ↔ its `chars()` with UTF-8 bytes). -/
def utf8Bytes (text : List Char) : List UInt8 :=
  text.flatMap String.utf8EncodeChar

/-- `text.char_indices().map(|(i, _)| i)`: the byte offset of each
character, i.e. the byte length of the preceding characters. -/
def char_to_byte (text : List Char) : List Nat :=
  (List.range text.length).map (fun i => (utf8Bytes (text.take i)).length)

/-- The inner loop of `indices_to_ranges` (matcher.rs lines 215–230):
grouping consecutive character indices into half-open character
ranges.  `start` and `e` carry the loop's `start`/`end` variables. -/
def group_ranges : Nat → Nat → List Nat → List (Nat × Nat)
  | start, e, [] => [(start, e)]
  | start, e, idx :: rest =>
    if idx = e then group_ranges start (idx + 1) rest
    else (start, e) :: group_ranges idx (idx + 1) rest

/-- `indices_to_ranges` (matcher.rs lines 206–247): convert nucleo's
`u32` character indices to byte-offset ranges (the `as usize` casts
are value-preserving, so indices are `Nat`). -/
def indices_to_ranges (indices : List Nat) (text : List Char) : List (Nat × Nat) :=
  match indices with
  | [] => []
  | i :: rest =>
    let c2b := char_to_byte text
    let text_len := (utf8Bytes text).length
    (group_ranges i (i + 1) rest).filterMap (fun r =>
      (c2b.get? r.1).map (fun byte_start =>
        (byte_start, if r.2 < c2b.length then c2b.getD r.2 0 else text_len)))

/-- `indices_to_ranges_usize` (matcher.rs lines 253–291): the same
conversion for `fuzzy_matcher`'s `usize` character indices; its body
is the byte-for-byte analogue of `indices_to_ranges`. -/
def indices_to_ranges_usize (indices : List Nat) (text : List Char) : List (Nat × Nat) :=
  match indices with
  | [] => []
  | i :: rest =>
    let c2b := char_to_byte text
    let text_len := (utf8Bytes text).length
    (group_ranges i (i + 1) rest).filterMap (fun r =>
      (c2b.get? r.1).map (fun byte_start =>
        (byte_start, if r.2 < c2b.length then c2b.getD r.2 0 else text_len)))

/-- `MatchedItem` (types.rs). -/
structure MatchedItem where
  item : CommandPaletteItem
  match_info : CommandPaletteMatch
deriving DecidableEq, Repr

/-- `CommandPaletteEvent` (state.rs). -/
inductive CommandPaletteEvent where
  | Selected (item : CommandPaletteItem)
  | Dismissed
deriving DecidableEq, Repr

/-- `CommandPaletteState` (state.rs).  The boxed `dyn CommandMatcher`
is a function field; the provider, window/context handles and the task
handle carry no state-machine content and are omitted.  `max_results`
is the one configuration field the state machine reads.  The
`async_items` hash map is an association list with unique keys
(`insert_by_id` preserves uniqueness), its order standing for the
map's iteration order. -/
structure CommandPaletteState where
  max_results : Nat
  matcher : String → CommandPaletteItem → Option CommandPaletteMatch
  query : String
  matched_items : List MatchedItem
  matched_static_len : Nat
  selected_index : Option Nat
  query_id : Nat
  static_items : List CommandPaletteItem
  async_items : List (String × CommandPaletteItem)

/-- `HashMap::insert`: replace the value at an existing key, otherwise
add a new binding. -/
def insert_by_id (m : List (String × CommandPaletteItem)) (key : String)
    (item : CommandPaletteItem) : List (String × CommandPaletteItem) :=
  if m.any (fun p => p.1 = key) then
    m.map (fun p => if p.1 = key then (key, item) else p)
  else m ++ [(key, item)]

/-- `static_items[pos] = item.clone()` with
`pos = static_items.iter().position(|i| i.id == id)`: replace the
first item carrying the given id. -/
def replace_first_by_id : List CommandPaletteItem → String → CommandPaletteItem →
    List CommandPaletteItem
  | [], _, _ => []
  | x :: xs, key, item =>
    if x.id = key then item :: xs else x :: replace_first_by_id xs key item

/-- The sort comparator of `update_matches` (state.rs lines 220–231)
as a `≤` test: `b.score.cmp(&a.score).then(a.title.cmp(&b.title))` is
not `Greater`.  Rust compares `&str` by UTF-8 bytes, which orders
exactly like Lean's code-point lexicographic `String` order. -/
def rank_le (a b : MatchedItem) : Bool :=
  decide (b.match_info.score < a.match_info.score ∨
    (a.match_info.score = b.match_info.score ∧ a.item.title ≤ b.item.title))

/-- `CommandPaletteState::update_matches` (state.rs lines 174–256).
`String::len` is the UTF-8 byte count `String.utf8ByteSize`. -/
def update_matches (s : CommandPaletteState) : CommandPaletteState :=
  if s.query.utf8ByteSize = 1 then
    { s with matched_static_len := 0, matched_items := [], selected_index := none }
  else
    let static_ids := s.static_items.map (fun i => i.id)
    let merged := s.async_items.foldl
      (fun (acc : List CommandPaletteItem × List CommandPaletteItem) p =>
        if static_ids.contains p.1 then (replace_first_by_id acc.1 p.1 p.2, acc.2)
        else (acc.1, acc.2 ++ [p.2]))
      (s.static_items, [])
    let static_items := merged.1
    let async_only_items := merged.2
    let matched_static := static_items.filterMap (fun item =>
      (s.matcher s.query item).map (fun mi => MatchedItem.mk item mi))
    let matched_async := async_only_items.filterMap (fun item =>
      (s.matcher s.query item).map (fun mi => MatchedItem.mk item mi))
    let matched_static := if s.query ≠ "" then matched_static.mergeSort rank_le else matched_static
    let matched_async := if s.query ≠ "" then matched_async.mergeSort rank_le else matched_async
    let total_len := matched_static.length + matched_async.length
    let total_limit := min total_len s.max_results
    let static_limit := min matched_static.length total_limit
    let async_limit := total_limit - static_limit
    let matched_static := matched_static.take static_limit
    let matched_async := matched_async.take async_limit
    let matched_items := matched_static ++ matched_async
    { s with
      matched_static_len := matched_static.length
      matched_items := matched_items
      selected_index := if matched_items.isEmpty then none else some 0 }

/-- `CommandPaletteState::set_query` (state.rs lines 108–171).  The
returned `Bool` records whether an asynchronous provider query was
scheduled (`cx.spawn_in`) rather than the ready no-op task; the
scheduled task's effect on completion is `async_completion_step`. -/
def set_query (s : CommandPaletteState) (query : String) : CommandPaletteState × Bool :=
  if s.query = query then (s, false)
  else
    let s := { s with query := query, query_id := s.query_id + 1, async_items := [] }
    let s := update_matches s
    if s.query.utf8ByteSize < 2 then (s, false) else (s, true)

/-- The spawned tail of `set_query` (state.rs lines 138–168).
`current_query_id` is the generation captured at scheduling time;
`observed_id_after_wait` is the generation loaded at the checkpoint
after the reveal-delay wait; `s` is the state when the provider future
resolves (its `query_id` is the second checkpoint's load); `items` is
the provider's result. -/
def async_completion_step (current_query_id observed_id_after_wait : Nat)
    (s : CommandPaletteState) (items : List CommandPaletteItem) : CommandPaletteState :=
  if observed_id_after_wait ≠ current_query_id then s
  else if s.query_id ≠ current_query_id then s
  else
    update_matches { s with
      async_items := items.foldl (fun m item => insert_by_id m item.id item) [] }

/-- `CommandPaletteState::new` (state.rs lines 61–105): initial fields
followed by the initial `update_matches` run. -/
def CommandPaletteState.new (max_results : Nat)
    (matcher : String → CommandPaletteItem → Option CommandPaletteMatch)
    (static_items : List CommandPaletteItem) : CommandPaletteState :=
  update_matches
    { max_results := max_results
      matcher := matcher
      query := ""
      matched_items := []
      matched_static_len := 0
      selected_index := none
      query_id := 0
      static_items := static_items
      async_items := [] }

/-- `CommandPaletteState::select_prev` (state.rs lines 259–270). -/
def select_prev (s : CommandPaletteState) : CommandPaletteState :=
  if s.matched_items.isEmpty then s
  else
    { s with selected_index := some (match s.selected_index with
        | some 0 | none => s.matched_items.length - 1
        | some i => i - 1) }

/-- `CommandPaletteState::select_next` (state.rs lines 273–285). -/
def select_next (s : CommandPaletteState) : CommandPaletteState :=
  if s.matched_items.isEmpty then s
  else
    { s with selected_index := some (match s.selected_index with
        | none => 0
        | some i => if i ≥ s.matched_items.length - 1 then 0 else i + 1) }

/-- `CommandPaletteState::confirm` (state.rs lines 288–298): the state
is returned unchanged together with the emitted event, if any. -/
def confirm (s : CommandPaletteState) : CommandPaletteState × Option CommandPaletteEvent :=
  match s.selected_index with
  | none => (s, none)
  | some index =>
    match s.matched_items.get? index with
    | none => (s, none)
    | some matched =>
      if matched.item.disabled then (s, none)
      else (s, some (CommandPaletteEvent.Selected matched.item))

/-- `CommandPaletteState::dismiss` (state.rs lines 301–303). -/
def dismiss (s : CommandPaletteState) : CommandPaletteState × Option CommandPaletteEvent :=
  (s, some CommandPaletteEvent.Dismissed)

/-- `CommandPaletteState::select_index` (state.rs lines 306–311). -/
def select_index (s : CommandPaletteState) (index : Nat) : CommandPaletteState :=
  if index < s.matched_items.length then { s with selected_index := some index } else s

/-- `CommandPaletteState::selected_item` (state.rs lines 314–316). -/
def selected_item (s : CommandPaletteState) : Option MatchedItem :=
  s.selected_index.bind (fun i => s.matched_items.get? i)

/-- The merge pass of `update_matches` (state.rs lines 182–199): async
entries whose id matches a static item overwrite that item in place,
the rest become the async-only candidates. -/
def merge_async_items (s : CommandPaletteState) :
    List CommandPaletteItem × List CommandPaletteItem :=
  let static_ids := s.static_items.map (fun i => i.id)
  s.async_items.foldl
    (fun acc p =>
      if static_ids.contains p.1 then (replace_first_by_id acc.1 p.1 p.2, acc.2)
      else (acc.1, acc.2 ++ [p.2]))
    (s.static_items, [])

/-- The static match list of `update_matches` after matching and
(for a non-empty query) sorting, before truncation. -/
def matched_static_list (s : CommandPaletteState) : List MatchedItem :=
  let l := (merge_async_items s).1.filterMap (fun item =>
    (s.matcher s.query item).map (fun mi => MatchedItem.mk item mi))
  if s.query ≠ "" then l.mergeSort rank_le else l

/-- The async-only match list of `update_matches` after matching and
(for a non-empty query) sorting, before truncation. -/
def matched_async_list (s : CommandPaletteState) : List MatchedItem :=
  let l := (merge_async_items s).2.filterMap (fun item =>
    (s.matcher s.query item).map (fun mi => MatchedItem.mk item mi))
  if s.query ≠ "" then l.mergeSort rank_le else l

/-- `selected_index` is `none` exactly on an empty `matched_items`
list, and otherwise stays in bounds. -/
def SelectionInvariant (s : CommandPaletteState) : Prop :=
  (s.selected_index = none ↔ s.matched_items = []) ∧
  ∀ i, s.selected_index = some i → i < s.matched_items.length

/-- Split a byte string at the given ranges and concatenate the
unhighlighted and highlighted pieces in order: the gap before each
range, the range itself, and finally the tail after the last range.
`pos` is the current position (initially `0`). -/
def reassemble (bytes : List UInt8) : Nat → List (Nat × Nat) → List UInt8
  | pos, [] => bytes.drop pos
  | pos, r :: rest =>
    (bytes.take r.1).drop pos ++ (bytes.take r.2).drop r.1 ++ reassemble bytes r.2 rest

/-- The ranges form a weakly increasing sequence of cut points
starting at or after `pos`. -/
def cutsOK : Nat → List (Nat × Nat) → Prop
  | _, [] => True
  | pos, r :: rest => pos ≤ r.1 ∧ r.1 ≤ r.2 ∧ cutsOK r.2 rest

/-- The byte offset of character index `i` in a text: the UTF-8 length
of the first `i` characters (defined for `i ≤ text.length`; this is
the value `char_to_byte` tabulates, extended by the total byte
length at `i = text.length`). -/
def byte_offset (text : List Char) (i : Nat) : Nat :=
  (utf8Bytes (text.take i)).length

/-! ### Selection invariant -/

lemma selectionInvariant_mk (s : CommandPaletteState) (k : Nat) (M : List MatchedItem) :
    SelectionInvariant
      { s with
        matched_static_len := k
        matched_items := M
        selected_index := if M.isEmpty then none else some 0 } := by
  rcases M with _ | ⟨x, xs⟩
  · exact ⟨by simp, by simp⟩
  · refine ⟨by simp, ?_⟩
    intro i hi
    simp at hi
    simp [← hi]

lemma selectionInvariant_update_matches (s : CommandPaletteState) :
    SelectionInvariant (update_matches s) := by
  unfold update_matches
  split
  · exact ⟨by simp, by simp⟩
  · exact selectionInvariant_mk _ _ _

lemma set_query_fst (s : CommandPaletteState) (q : String) :
    (set_query s q).1 = if s.query = q then s
      else update_matches { s with query := q, query_id := s.query_id + 1, async_items := [] } := by
  rw [set_query]
  split
  · rfl
  · dsimp only
    split <;> rfl

lemma confirm_fst (s : CommandPaletteState) : (confirm s).1 = s := by
  rw [confirm]
  rcases s.selected_index with _ | i
  · rfl
  · dsimp only
    rcases h : s.matched_items.get? i with _ | m
    · rfl
    · dsimp only
      split <;> rfl

/-- CLAIM C8: after construction and after every operation
(`set_query`, recompute, `select_next`, `select_prev`, `select_index`,
`confirm`, `dismiss`), `selected_index` is `none` iff `matched_items`
is empty, and any `some i` satisfies `i < matched_items.length`. -/
theorem selection_invariant_all_operations :
    (∀ (mr : Nat) (m : String → CommandPaletteItem → Option CommandPaletteMatch)
        (items : List CommandPaletteItem),
      SelectionInvariant (CommandPaletteState.new mr m items)) ∧
    (∀ s q, SelectionInvariant s → SelectionInvariant (set_query s q).1) ∧
    (∀ s, SelectionInvariant (update_matches s)) ∧
    (∀ s, SelectionInvariant s → SelectionInvariant (select_next s)) ∧
    (∀ s, SelectionInvariant s → SelectionInvariant (select_prev s)) ∧
    (∀ s i, SelectionInvariant s → SelectionInvariant (select_index s i)) ∧
    (∀ s, SelectionInvariant s → SelectionInvariant (confirm s).1) ∧
    (∀ s, SelectionInvariant s → SelectionInvariant (dismiss s).1) := by
  refine ⟨?_, ?_, selectionInvariant_update_matches, ?_, ?_, ?_, ?_, ?_⟩
  · intro mr m items
    exact selectionInvariant_update_matches _
  · intro s q h
    rw [set_query_fst]
    split
    · exact h
    · exact selectionInvariant_update_matches _
  · intro s h
    rw [select_next]
    split
    · exact h
    · next hne =>
      have hne' : s.matched_items ≠ [] := by simpa [List.isEmpty_iff] using hne
      have hpos : 0 < s.matched_items.length := List.length_pos.mpr hne'
      refine ⟨by simp [hne'], ?_⟩
      intro i hi
      dsimp only at hi ⊢
      rcases hsel : s.selected_index with _ | j <;> rw [hsel] at hi
      · simp at hi
        omega
      · dsimp only at hi
        split at hi <;> simp at hi <;> omega
  · intro s h
    rw [select_prev]
    split
    · exact h
    · next hne =>
      have hne' : s.matched_items ≠ [] := by simpa [List.isEmpty_iff] using hne
      have hpos : 0 < s.matched_items.length := List.length_pos.mpr hne'
      refine ⟨by simp [hne'], ?_⟩
      intro i hi
      dsimp only at hi ⊢
      rcases hsel : s.selected_index with _ | j <;> rw [hsel] at hi
      · simp at hi
        omega
      · rcases j with _ | j
        · simp at hi
          omega
        · simp at hi
          have := h.2 (j + 1) hsel
          omega
  · intro s i h
    rw [select_index]
    split
    · next hlt =>
      constructor
      · constructor
        · intro h'
          dsimp only at h'
          cases h'
        · intro h'
          rw [h'] at hlt
          simp at hlt
      · intro j hj
        dsimp only at hj ⊢
        cases hj
        exact hlt
    · exact h
  · intro s h
    rw [confirm_fst]
    exact h
  · intro s h
    exact h

/-- Closed instance for C8: the invariant holds after `select_next` on
a freshly constructed palette over one item. -/
theorem selection_invariant_all_operations_witness :
    SelectionInvariant (select_next (CommandPaletteState.new 50 (fun _ _ => none) [])) :=
  selection_invariant_all_operations.2.2.2.1 _
    (selection_invariant_all_operations.1 50 (fun _ _ => none) [])

/-! ### Staleness guard (asynchronous completion) -/

/-- CLAIM C3: an asynchronous completion whose captured generation
differs from the generation observed at either checkpoint (after the
reveal-delay wait, or when the provider future resolves) leaves the
state untouched; only a completion whose generation is current at both
checkpoints replaces `async_items` (keyed by id) and recomputes. -/
theorem async_completion_staleness_guard :
    (∀ (cap obs : Nat) (s : CommandPaletteState) (items : List CommandPaletteItem),
      obs ≠ cap ∨ s.query_id ≠ cap → async_completion_step cap obs s items = s) ∧
    (∀ (cap : Nat) (s : CommandPaletteState) (items : List CommandPaletteItem),
      s.query_id = cap →
        async_completion_step cap cap s items =
          update_matches { s with
            async_items := items.foldl (fun m item => insert_by_id m item.id item) [] }) := by
  constructor
  · intro cap obs s items h
    unfold async_completion_step
    split_ifs with h1 h2
    · rfl
    · rfl
    · rcases h with h | h
      · exact absurd h h1
      · exact absurd h h2
  · intro cap s items h
    unfold async_completion_step
    split_ifs with h1 h2
    · exact absurd rfl h1
    · exact absurd h h2
    · rfl

/-- Closed instance for C3: a stale completion (observed generation 0,
captured 1) leaves a concrete state unchanged. -/
theorem async_completion_staleness_guard_witness :
    async_completion_step 1 0 (CommandPaletteState.new 50 (fun _ _ => none) []) [] =
      CommandPaletteState.new 50 (fun _ _ => none) [] :=
  async_completion_staleness_guard.1 1 0 _ [] (Or.inl (by decide))

/-! ### Back-end score composition (C1) -/

/-- Counterexample for C1: with a sub-match oracle that matches every
field with score 10 and a query "ab", on an item whose title is "x"
and category "y" the Nucleo back-end scores 1011 (category bonus
10 / 10 = 1 included) while the SkimMatcherV2 wrapper scores 1010 —
it computes no category sub-match at all. -/
theorem match_item_backends_category_counterexample :
    (NucleoMatcher.match_item (fun _ _ => some (10, [])) "ab"
        { id := "a", title := "x", subtitle := none, category := "y",
          keywords := [], disabled := false }).map CommandPaletteMatch.score = some 1011 ∧
    (FuzzyMatcherWrapper.match_item (fun _ _ => some (10, [])) "ab"
        { id := "a", title := "x", subtitle := none, category := "y",
          keywords := [], disabled := false }).map CommandPaletteMatch.score = some 1010 ∧
    NucleoMatcher.match_item (fun _ _ => some (10, [])) "ab"
        { id := "a", title := "x", subtitle := none, category := "y",
          keywords := [], disabled := false } ≠
      FuzzyMatcherWrapper.match_item (fun _ _ => some (10, [])) "ab"
        { id := "a", title := "x", subtitle := none, category := "y",
          keywords := [], disabled := false } := by
  refine ⟨rfl, rfl, ?_⟩
  decide

/-- CLAIM C1 (amended): given equal sub-match outcomes, the two
back-ends compose title, subtitle and keyword scores identically, but
only the Nucleo back-end adds the category bonus; the two `match_item`
results coincide whenever the category does not sub-match. -/
theorem match_item_backends_agree_without_category
    (mt : MatchTextFn) (q : String) (it : CommandPaletteItem)
    (hq : q ≠ "") (hcat : mt q it.category = none) :
    NucleoMatcher.match_item mt q it = FuzzyMatcherWrapper.match_item mt q it := by
  unfold NucleoMatcher.match_item FuzzyMatcherWrapper.match_item
  rw [if_neg hq, if_neg hq]
  simp only [hcat]

/-- Closed instance for C1 (amended): the two back-ends agree on a
concrete oracle that does not match the category. -/
theorem match_item_backends_agree_without_category_witness :
    ("ab" : String) ≠ "" ∧
    NucleoMatcher.match_item (fun _ t => if t = "x" then some (3, [(0, 1)]) else none) "ab"
        { id := "a", title := "x", subtitle := none, category := "y",
          keywords := [], disabled := false } =
      FuzzyMatcherWrapper.match_item (fun _ t => if t = "x" then some (3, [(0, 1)]) else none) "ab"
        { id := "a", title := "x", subtitle := none, category := "y",
          keywords := [], disabled := false } :=
  ⟨by decide,
    match_item_backends_agree_without_category _ "ab" _ (by decide) (by decide)⟩

/-! ### Confirm (C9) -/

/-- CLAIM C9: `confirm` emits `Selected` with a clone of the selected
item exactly when a selection exists (with an in-range index) and the
selected item is not disabled; it never emits anything else and leaves
the whole state unchanged. -/
theorem confirm_selected_characterization (s : CommandPaletteState) :
    (confirm s).1 = s ∧
    (∀ it, (confirm s).2 = some (CommandPaletteEvent.Selected it) ↔
      ∃ m, selected_item s = some m ∧ m.item.disabled = false ∧ it = m.item) ∧
    (confirm s).2 ≠ some CommandPaletteEvent.Dismissed := by
  refine ⟨confirm_fst s, ?_, ?_⟩
  · intro it
    unfold confirm selected_item
    rcases hsel : s.selected_index with _ | i
    · simp
    · simp only [Option.some_bind]
      rcases hgi : s.matched_items.get? i with _ | m
      · simp [hgi]
      · simp only [hgi]
        split_ifs with hd
        · simp [hd]
        · simp only [Bool.not_eq_true] at hd
          simp [hd]
          exact eq_comm
  · unfold confirm
    rcases hsel : s.selected_index with _ | i
    · nofun
    · dsimp only
      rcases hgi : s.matched_items.get? i with _ | m
      · nofun
      · dsimp only
        split_ifs with hd
        · nofun
        · nofun

/-! ### Title highlight ranges are retained (C10) -/

/-- CLAIM C10: whenever the title sub-matches, both back-ends keep the
title's highlight ranges in the result — even when the subtitle or a
keyword supplies the winning score — and title and subtitle ranges can
be simultaneously non-empty (concrete instance in the last
conjunct). -/
theorem match_item_title_ranges_retained
    (mt : MatchTextFn) (q : String) (it : CommandPaletteItem)
    (ts : Int) (tr : List (Nat × Nat)) (hq : q ≠ "")
    (ht : mt q it.title = some (ts, tr)) :
    (∃ m, NucleoMatcher.match_item mt q it = some m ∧ m.title_ranges = tr) ∧
    (∃ m, FuzzyMatcherWrapper.match_item mt q it = some m ∧ m.title_ranges = tr) ∧
    (∃ m, NucleoMatcher.match_item
        (fun _ t => if t = "t" then some (0, [(0, 1)]) else some (1000, [(1, 2)])) "ab"
        { id := "a", title := "t", subtitle := some "s", category := "c",
          keywords := [], disabled := false } = some m ∧
      m.title_ranges ≠ [] ∧ m.subtitle_ranges ≠ []) := by
  refine ⟨?_, ?_, ?_⟩
  · rw [NucleoMatcher.match_item, if_neg hq]
    simp only [ht]
    rcases hsm : it.subtitle.bind (fun s => mt q s) with _ | ⟨ss, sr⟩ <;>
      rcases hkm : max_by_score (it.keywords.filterMap (fun k => mt q k)) with _ | ⟨ks, kr⟩ <;>
      rcases hcm : mt q it.category with _ | ⟨cs, cr⟩ <;>
      simp only [hsm, hkm, hcm] <;>
      (try split_ifs) <;>
      simp [CommandPaletteMatch.new, CommandPaletteMatch.with_title_ranges,
        CommandPaletteMatch.with_subtitle_ranges] <;>
      (try (split_ifs <;> exact ⟨_, rfl⟩))
  · rw [FuzzyMatcherWrapper.match_item, if_neg hq]
    simp only [ht]
    rcases hsm : it.subtitle.bind (fun s => mt q s) with _ | ⟨ss, sr⟩ <;>
      rcases hkm : max_by_score (it.keywords.filterMap (fun k => mt q k)) with _ | ⟨ks, kr⟩ <;>
      simp only [hsm, hkm] <;>
      (try split_ifs) <;>
      simp [CommandPaletteMatch.new, CommandPaletteMatch.with_title_ranges,
        CommandPaletteMatch.with_subtitle_ranges] <;>
      (try (split_ifs <;> exact ⟨_, rfl⟩))
  · exact ⟨⟨1600, [(0, 1)], [(1, 2)]⟩, by decide, by decide, by decide⟩

/-- Closed instance for C10 at a concrete oracle where the subtitle
wins the score but the title's ranges are kept. -/
theorem match_item_title_ranges_retained_witness :
    (∃ m, NucleoMatcher.match_item
        (fun _ t => if t = "t" then some (0, [(0, 1)]) else some (1000, [(1, 2)])) "ab"
        { id := "a", title := "t", subtitle := some "s", category := "c",
          keywords := [], disabled := false } = some m ∧ m.title_ranges = [(0, 1)]) :=
  (match_item_title_ranges_retained
    (fun _ t => if t = "t" then some (0, [(0, 1)]) else some (1000, [(1, 2)])) "ab"
    { id := "a", title := "t", subtitle := some "s", category := "c",
      keywords := [], disabled := false }
    0 [(0, 1)] (by decide) (by decide)).1

/-! ### Query-length thresholds (C2) -/

lemma update_matches_query (s : CommandPaletteState) :
    (update_matches s).query = s.query := by
  rw [update_matches]
  split <;> rfl

/-- Counterexample for C2: the thresholds are measured in UTF-8 bytes,
not Unicode scalars.  The query `"é"` is a single Unicode scalar of
two bytes: `set_query` does schedule the asynchronous provider query
for it, and the recompute does not force an empty result set — with a
matcher matching everything, the single static item stays matched. -/
theorem set_query_scalar_threshold_counterexample :
    ("é" : String).length = 1 ∧
    (set_query (CommandPaletteState.new 50
        (fun _ _ => some (CommandPaletteMatch.new 7))
        [{ id := "e", title := "t", subtitle := none, category := "",
           keywords := [], disabled := false }]) "é").2 = true ∧
    (set_query (CommandPaletteState.new 50
        (fun _ _ => some (CommandPaletteMatch.new 7))
        [{ id := "e", title := "t", subtitle := none, category := "",
           keywords := [], disabled := false }]) "é").1.matched_items ≠ [] ∧
    (set_query (CommandPaletteState.new 50
        (fun _ _ => some (CommandPaletteMatch.new 7))
        [{ id := "e", title := "t", subtitle := none, category := "",
           keywords := [], disabled := false }]) "é").1.selected_index = some 0 := by
  refine ⟨by decide, by decide, ?_, ?_⟩ <;>
    simp [CommandPaletteState.new, set_query, update_matches, rank_le, List.mergeSort,
      show ("é" : String).utf8ByteSize = 2 from rfl,
      show ("" : String).utf8ByteSize = 0 from rfl]

/-- CLAIM C2 (amended): the `set_query` thresholds are measured in
UTF-8 bytes (`String::len`): the asynchronous provider query is
scheduled iff the new query has at least 2 bytes, and the recompute
forces an empty result set with no selection when the query is exactly
1 byte long.  A single multi-byte scalar such as `"é"` is 2 bytes, so
it schedules the asynchronous query and is matched normally. -/
theorem query_length_thresholds_in_bytes :
    (∀ (s : CommandPaletteState) (q : String), s.query ≠ q →
      ((set_query s q).2 = true ↔ 2 ≤ q.utf8ByteSize)) ∧
    (∀ s : CommandPaletteState, s.query.utf8ByteSize = 1 →
      (update_matches s).matched_items = [] ∧
      (update_matches s).selected_index = none) := by
  constructor
  · intro s q hne
    rw [set_query, if_neg hne]
    dsimp only
    rw [update_matches_query]
    dsimp only
    split_ifs with h
    · simp only [Bool.false_eq_true, false_iff]
      omega
    · simp only [true_iff]
      omega
  · intro s h
    rw [update_matches, if_pos h]
    exact ⟨rfl, rfl⟩

/-- Closed instance for C2 (amended): scheduling for a two-byte query,
forced empty recompute for a one-byte query. -/
theorem query_length_thresholds_in_bytes_witness :
    ((set_query (CommandPaletteState.new 50 (fun _ _ => none) []) "ab").2 = true ↔
      2 ≤ ("ab" : String).utf8ByteSize) ∧
    ((update_matches
        { max_results := 50, matcher := fun _ _ => none, query := "a", matched_items := []
          matched_static_len := 0, selected_index := none, query_id := 0
          static_items := [], async_items := [] }).matched_items = [] ∧
      (update_matches
        { max_results := 50, matcher := fun _ _ => none, query := "a", matched_items := []
          matched_static_len := 0, selected_index := none, query_id := 0
          static_items := [], async_items := [] }).selected_index = none) :=
  ⟨query_length_thresholds_in_bytes.1 _ "ab" (by decide),
    query_length_thresholds_in_bytes.2 _ (by decide)⟩

/-! ### Truncation with static priority (C4) -/

lemma update_matches_eq (s : CommandPaletteState) (h : s.query.utf8ByteSize ≠ 1) :
    update_matches s =
      (let S := matched_static_list s
       let A := matched_async_list s
       let total_limit := min (S.length + A.length) s.max_results
       let static_limit := min S.length total_limit
       let async_limit := total_limit - static_limit
       { s with
         matched_static_len := (S.take static_limit).length
         matched_items := S.take static_limit ++ A.take async_limit
         selected_index :=
           if (S.take static_limit ++ A.take async_limit).isEmpty then none else some 0 }) := by
  rw [update_matches, if_neg h]
  rfl

/-- CLAIM C4: with a query that is not the forced-empty special case,
the recompute truncates with static priority:
`total_limit = min (|S| + |A|) max_results`,
`static_limit = min |S| total_limit`,
`async_limit = total_limit - static_limit`, `matched_items` is the
truncated static list followed by the truncated async list,
`matched_static_len` is the truncated static count, and the result
never exceeds `max_results`; concretely, with `max_results = 1`, one
static match and one async-only match, the result is exactly the
static match. -/
theorem update_matches_truncation (s : CommandPaletteState)
    (h : s.query.utf8ByteSize ≠ 1) :
    (let S := matched_static_list s
     let A := matched_async_list s
     let total_limit := min (S.length + A.length) s.max_results
     let static_limit := min S.length total_limit
     let async_limit := total_limit - static_limit
     (update_matches s).matched_items = S.take static_limit ++ A.take async_limit ∧
     (update_matches s).matched_static_len = static_limit ∧
     (update_matches s).matched_items.length = total_limit ∧
     (update_matches s).matched_items.length ≤ s.max_results) ∧
    (update_matches
        { max_results := 1, matcher := fun _ _ => some (CommandPaletteMatch.new 7)
          query := "xy", matched_items := [], matched_static_len := 0
          selected_index := none, query_id := 0
          static_items := [{ id := "s", title := "t", subtitle := none, category := ""
                             keywords := [], disabled := false }]
          async_items := [("a", { id := "a", title := "u", subtitle := none, category := ""
                                  keywords := [], disabled := false })] }).matched_items =
      [{ item := { id := "s", title := "t", subtitle := none, category := ""
                   keywords := [], disabled := false }
         match_info := CommandPaletteMatch.new 7 }] := by
  constructor
  · rw [update_matches_eq s h]
    refine ⟨rfl, ?_, ?_, ?_⟩ <;>
      simp only [List.length_append, List.length_take] <;> omega
  · simp [update_matches, merge_async_items, matched_static_list, matched_async_list,
      replace_first_by_id, rank_le, List.mergeSort,
      show ("xy" : String).utf8ByteSize = 2 from rfl]

/-- Closed instance for C4: the truncated result respects
`max_results` on a concrete state. -/
theorem update_matches_truncation_witness :
    (update_matches
        { max_results := 1, matcher := fun _ _ => some (CommandPaletteMatch.new 7)
          query := "xy", matched_items := [], matched_static_len := 0
          selected_index := none, query_id := 0
          static_items := [{ id := "s", title := "t", subtitle := none, category := ""
                             keywords := [], disabled := false }]
          async_items := [("a", { id := "a", title := "u", subtitle := none, category := ""
                                  keywords := [], disabled := false })] }).matched_items.length ≤
      (1 : Nat) :=
  ((update_matches_truncation _ (by decide)).1.2.2.2 : _)

/-! ### Sort determinism (C7) -/

lemma rank_le_trans (a b c : MatchedItem) :
    rank_le a b = true → rank_le b c = true → rank_le a c = true := by
  simp only [rank_le, decide_eq_true_eq]
  intro h1 h2
  rcases h1 with h1 | ⟨h1, h1t⟩ <;> rcases h2 with h2 | ⟨h2, h2t⟩
  · left; omega
  · left; omega
  · left; omega
  · right; exact ⟨by omega, le_trans h1t h2t⟩

lemma rank_le_total (a b : MatchedItem) :
    (rank_le a b || rank_le b a) = true := by
  simp only [rank_le, Bool.or_eq_true, decide_eq_true_eq]
  rcases lt_trichotomy a.match_info.score b.match_info.score with h | h | h
  · right; left; exact h
  · rcases le_total a.item.title b.item.title with ht | ht
    · left; right; exact ⟨h, ht⟩
    · right; right; exact ⟨h.symm, ht⟩
  · left; left; exact h

/-- The descending-score, ties-by-ascending-title order used by the
recompute sort, as a proposition. -/
def RankedBefore (a b : MatchedItem) : Prop :=
  b.match_info.score < a.match_info.score ∨
    (a.match_info.score = b.match_info.score ∧ a.item.title ≤ b.item.title)

lemma pairwise_rankedBefore_mergeSort (l : List MatchedItem) :
    List.Pairwise RankedBefore (l.mergeSort rank_le) := by
  have h := List.sorted_mergeSort rank_le_trans rank_le_total l
  exact h.imp (fun hab => by simpa [rank_le, decide_eq_true_eq, RankedBefore] using hab)

/-- CLAIM C7: with a non-empty query both intermediate match lists are
sorted descending by score with ties broken by ascending title, and so
are the static and async segments of the final `matched_items`; with
an empty query no sort is applied and the merge pass's original item
order is preserved in both lists. -/
theorem update_matches_sort_determinism :
    (∀ s : CommandPaletteState, s.query ≠ "" →
      List.Pairwise RankedBefore (matched_static_list s) ∧
      List.Pairwise RankedBefore (matched_async_list s) ∧
      List.Pairwise RankedBefore
        ((update_matches s).matched_items.take (update_matches s).matched_static_len) ∧
      List.Pairwise RankedBefore
        ((update_matches s).matched_items.drop (update_matches s).matched_static_len)) ∧
    (∀ s : CommandPaletteState, s.query = "" →
      matched_static_list s = (merge_async_items s).1.filterMap (fun item =>
        (s.matcher s.query item).map (fun mi => MatchedItem.mk item mi)) ∧
      matched_async_list s = (merge_async_items s).2.filterMap (fun item =>
        (s.matcher s.query item).map (fun mi => MatchedItem.mk item mi))) := by
  constructor
  · intro s hq
    have hS : List.Pairwise RankedBefore (matched_static_list s) := by
      rw [matched_static_list]
      rw [if_pos hq]
      exact pairwise_rankedBefore_mergeSort _
    have hA : List.Pairwise RankedBefore (matched_async_list s) := by
      rw [matched_async_list]
      rw [if_pos hq]
      exact pairwise_rankedBefore_mergeSort _
    refine ⟨hS, hA, ?_, ?_⟩ <;> by_cases h1 : s.query.utf8ByteSize = 1
    · rw [update_matches, if_pos h1]
      simp
    · rw [update_matches_eq s h1]
      dsimp only
      rw [List.take_left]
      exact List.Pairwise.sublist (List.take_sublist _ _) hS
    · rw [update_matches, if_pos h1]
      simp
    · rw [update_matches_eq s h1]
      dsimp only
      rw [List.drop_left]
      exact List.Pairwise.sublist (List.take_sublist _ _) hA
  · intro s hq
    constructor <;> [rw [matched_static_list]; rw [matched_async_list]] <;>
      rw [if_neg (by simp [hq])]

/-- Closed instance for C7: sortedness at a non-empty query and
order preservation at the empty query, on concrete states. -/
theorem update_matches_sort_determinism_witness :
    List.Pairwise RankedBefore (matched_static_list
      { max_results := 1, matcher := fun _ _ => none, query := "ab", matched_items := []
        matched_static_len := 0, selected_index := none, query_id := 0
        static_items := [], async_items := [] }) ∧
    matched_static_list
      { max_results := 1, matcher := fun _ _ => none, query := "", matched_items := []
        matched_static_len := 0, selected_index := none, query_id := 0
        static_items := [], async_items := [] } =
    (merge_async_items
      { max_results := 1, matcher := fun _ _ => none, query := "", matched_items := []
        matched_static_len := 0, selected_index := none, query_id := 0
        static_items := [], async_items := [] }).1.filterMap (fun item =>
      ((fun (_ : String) (_ : CommandPaletteItem) =>
          (none : Option CommandPaletteMatch)) "" item).map
        (fun mi => MatchedItem.mk item mi)) :=
  ⟨(update_matches_sort_determinism.1 _ (by decide)).1,
    (update_matches_sort_determinism.2 _ rfl).1⟩

/-! ### Nucleo composition rule (C5) -/

lemma max_by_score_map_fst_aux (as : List SubMatch) (a : SubMatch) :
    (List.foldl (fun acc x =>
        match acc with
        | none => some x
        | some a => if a.1 ≤ x.1 then some x else some a) (some a) as).map Prod.fst =
      some (List.foldl max a.1 (as.map Prod.fst)) := by
  induction as generalizing a with
  | nil => rfl
  | cons x as ih =>
    simp only [List.foldl_cons, List.map_cons]
    split_ifs with h
    · rw [ih x, max_eq_right h]
    · rw [ih a, max_eq_left (le_of_not_le h)]

lemma max_by_score_map_fst (l : List SubMatch) :
    (max_by_score l).map Prod.fst = (l.map Prod.fst).max? := by
  rcases l with _ | ⟨a, as⟩
  · rfl
  · rw [max_by_score]
    simp only [List.foldl_cons, List.map_cons, List.max?_cons']
    exact max_by_score_map_fst_aux as a

lemma max_by_score_eq_none (l : List SubMatch) :
    max_by_score l = none ↔ l = [] := by
  rcases l with _ | ⟨a, as⟩
  · simp [max_by_score]
  · simp only [List.cons_ne_nil, iff_false]
    intro h
    have := congrArg (Option.map Prod.fst) h
    rw [max_by_score] at this
    simp only [List.foldl_cons] at this
    rw [max_by_score_map_fst_aux as a] at this
    cases this

lemma keyword_none_iff (mt : MatchTextFn) (q : String) (it : CommandPaletteItem) :
    max_by_score (it.keywords.filterMap (fun k => mt q k)) = none ↔
      ∀ k ∈ it.keywords, mt q k = none := by
  rw [max_by_score_eq_none, List.filterMap_eq_nil_iff]

/-- CLAIM C5: for a non-empty query the Nucleo back-end's `match_item`
is `none` iff neither title nor subtitle nor any keyword sub-matches;
otherwise its score is the maximum of the present candidates
`title + 1000`, `subtitle + 500` and `best keyword + 200`, plus the
category bonus `category_sub_score.tdiv 10` when the category also
sub-matches (category alone never creates a match). -/
theorem nucleo_match_item_characterization
    (mt : MatchTextFn) (q : String) (it : CommandPaletteItem) (hq : q ≠ "") :
    (NucleoMatcher.match_item mt q it = none ↔
      mt q it.title = none ∧ it.subtitle.bind (fun s => mt q s) = none ∧
        ∀ k ∈ it.keywords, mt q k = none) ∧
    (NucleoMatcher.match_item mt q it).map CommandPaletteMatch.score =
      (Option.merge max
        (Option.merge max ((mt q it.title).map (fun p => p.1 + 1000))
          ((it.subtitle.bind (fun s => mt q s)).map (fun p => p.1 + 500)))
        (((it.keywords.filterMap (fun k => mt q k)).map Prod.fst).max?.map
          (fun v => v + 200))).map
        (fun b => b + ((mt q it.category).map (fun p => p.1.tdiv 10)).getD 0) := by
  constructor
  · unfold NucleoMatcher.match_item
    rw [if_neg hq, ← keyword_none_iff mt q it]
    rcases htm : mt q it.title with _ | ⟨ts, tr⟩ <;>
      rcases hsm : it.subtitle.bind (fun s => mt q s) with _ | ⟨ss, sr⟩ <;>
      rcases hkm : max_by_score (it.keywords.filterMap (fun k => mt q k)) with _ | ⟨ks, kr⟩ <;>
      rcases hcm : mt q it.category with _ | ⟨cs, cr⟩ <;>
      simp only [htm, hsm, hkm, hcm] <;>
      (try split_ifs) <;> (try simp) <;> (try split_ifs) <;> (try simp)
  · unfold NucleoMatcher.match_item
    rw [if_neg hq, ← max_by_score_map_fst]
    rcases htm : mt q it.title with _ | ⟨ts, tr⟩ <;>
      rcases hsm : it.subtitle.bind (fun s => mt q s) with _ | ⟨ss, sr⟩ <;>
      rcases hkm : max_by_score (it.keywords.filterMap (fun k => mt q k)) with _ | ⟨ks, kr⟩ <;>
      rcases hcm : mt q it.category with _ | ⟨cs, cr⟩ <;>
      simp only [htm, hsm, hkm, hcm, Option.merge, Option.map_some, Option.map_none,
        Option.map_map, Option.getD_some, Option.getD_none] <;>
      (try split_ifs) <;>
      (try simp [CommandPaletteMatch.new, CommandPaletteMatch.with_title_ranges,
        CommandPaletteMatch.with_subtitle_ranges]) <;>
      (try split_ifs) <;>
      (try simp [CommandPaletteMatch.new, CommandPaletteMatch.with_title_ranges,
        CommandPaletteMatch.with_subtitle_ranges]) <;>
      omega

/-- Closed instance for C5 at a concrete oracle: title and keyword
match, subtitle does not, category adds its bonus. -/
theorem nucleo_match_item_characterization_witness :
    (NucleoMatcher.match_item
        (fun _ t => if t = "k" then some (900, []) else if t = "c" then some (20, [])
          else if t = "t" then some (5, [(0, 1)]) else none) "ab"
        { id := "a", title := "t", subtitle := none, category := "c",
          keywords := ["k", "z"], disabled := false }).map CommandPaletteMatch.score =
      (Option.merge max
        (Option.merge max (((fun _ t => if t = "k" then some (900, []) else
            if t = "c" then some ((20 : Int), ([] : List (Nat × Nat))) else
            if t = "t" then some (5, [(0, 1)]) else none) "ab" "t").map
              (fun p => p.1 + 1000))
          (((Option.none).bind ((fun _ t => if t = "k" then some (900, []) else
            if t = "c" then some ((20 : Int), ([] : List (Nat × Nat))) else
            if t = "t" then some (5, [(0, 1)]) else none) "ab")).map (fun p => p.1 + 500)))
        (((["k", "z"].filterMap (fun k => (fun _ t => if t = "k" then some (900, []) else
            if t = "c" then some ((20 : Int), ([] : List (Nat × Nat))) else
            if t = "t" then some (5, [(0, 1)]) else none) "ab" k)).map Prod.fst).max?.map
          (fun v => v + 200))).map
        (fun b => b + (((fun _ t => if t = "k" then some (900, []) else
            if t = "c" then some ((20 : Int), ([] : List (Nat × Nat))) else
            if t = "t" then some (5, [(0, 1)]) else none) "ab" "c").map
              (fun p => p.1.tdiv 10)).getD 0) :=
  (nucleo_match_item_characterization _ "ab" _ (by decide)).2

/-! ### Highlight-range round trip (C6) -/

lemma length_utf8Bytes (cs : List Char) :
    (utf8Bytes cs).length = (cs.map Char.utf8Size).sum := by
  simp [utf8Bytes, List.length_flatMap, Function.comp_def, String.length_utf8EncodeChar]

lemma byte_offset_add (cs : List Char) {a b : Nat} (h : a ≤ b) :
    byte_offset cs b = byte_offset cs a + (utf8Bytes ((cs.drop a).take (b - a))).length := by
  have h1 : cs.take b = cs.take a ++ (cs.drop a).take (b - a) := by
    conv_lhs => rw [show b = a + (b - a) by omega]
    exact List.take_add cs a (b - a)
  rw [byte_offset, h1, utf8Bytes, List.flatMap_append, List.length_append]
  rfl

lemma byte_offset_mono (cs : List Char) {a b : Nat} (h : a ≤ b) :
    byte_offset cs a ≤ byte_offset cs b := by
  rw [byte_offset_add cs h]
  exact Nat.le_add_right _ _

lemma byte_offset_strict_mono (cs : List Char) {a b : Nat}
    (hab : a < b) (ha : a < cs.length) :
    byte_offset cs a < byte_offset cs b := by
  rw [byte_offset_add cs hab.le]
  rcases hd : cs.drop a with _ | ⟨c, rest⟩
  · have := congrArg List.length hd
    simp at this
    omega
  · rw [show b - a = b - a - 1 + 1 by omega, List.take_succ_cons, utf8Bytes,
      List.flatMap_cons, List.length_append, String.length_utf8EncodeChar]
    have := Char.utf8Size_pos c
    omega

lemma char_to_byte_length (cs : List Char) : (char_to_byte cs).length = cs.length := by
  simp [char_to_byte]

lemma char_to_byte_get? (cs : List Char) {i : Nat} (h : i < cs.length) :
    (char_to_byte cs).get? i = some (byte_offset cs i) := by
  rw [char_to_byte, List.get?_eq_getElem?, List.getElem?_map, List.getElem?_range h]
  rfl

lemma char_to_byte_getD (cs : List Char) {i : Nat} (h : i < cs.length) :
    (char_to_byte cs).getD i 0 = byte_offset cs i := by
  rw [List.getD_eq_getElem?_getD, ← List.get?_eq_getElem?, char_to_byte_get? cs h]
  rfl

lemma byte_offset_length_self (cs : List Char) :
    byte_offset cs cs.length = (utf8Bytes cs).length := by
  rw [byte_offset, List.take_length]

lemma end_byte_eq (cs : List Char) {ce : Nat} (h : ce ≤ cs.length) :
    (if ce < (char_to_byte cs).length then (char_to_byte cs).getD ce 0
      else (utf8Bytes cs).length) = byte_offset cs ce := by
  rw [char_to_byte_length]
  split_ifs with hlt
  · exact char_to_byte_getD cs hlt
  · have hce : ce = cs.length := by omega
    rw [hce, byte_offset_length_self]

lemma group_ranges_spec (rest : List Nat) :
    ∀ (start last : Nat), start ≤ last →
      List.Chain' (· < ·) (last :: rest) →
      (∀ r ∈ group_ranges start (last + 1) rest, r.1 < r.2) ∧
      List.Chain' (fun a b : Nat × Nat => a.2 ≤ b.1) (group_ranges start (last + 1) rest) ∧
      (∀ r ∈ group_ranges start (last + 1) rest,
        (r.1 = start ∨ r.1 ∈ rest) ∧ ∃ j, (j = last ∨ j ∈ rest) ∧ r.2 = j + 1) ∧
      (group_ranges start (last + 1) rest).head?.map Prod.fst = some start := by
  induction rest with
  | nil =>
    intro start last h1 _
    refine ⟨?_, ?_, ?_, ?_⟩ <;> simp [group_ranges]
    omega
  | cons idx rest ih =>
    intro start last h1 h2
    rw [List.chain'_cons] at h2
    obtain ⟨hli, h2'⟩ := h2
    by_cases he : idx = last + 1
    · rw [group_ranges, if_pos he]
      obtain ⟨p1, p2, p3, p4⟩ := ih start idx (by omega) h2'
      refine ⟨p1, p2, ?_, p4⟩
      intro r hr
      obtain ⟨q1, j, q2, q3⟩ := p3 r hr
      refine ⟨?_, j, ?_, q3⟩
      · rcases q1 with q1 | q1
        · exact Or.inl q1
        · exact Or.inr (List.mem_cons_of_mem _ q1)
      · rcases q2 with q2 | q2
        · exact Or.inr (q2 ▸ List.mem_cons_self _ _)
        · exact Or.inr (List.mem_cons_of_mem _ q2)
    · rw [group_ranges, if_neg he]
      obtain ⟨p1, p2, p3, p4⟩ := ih idx idx (le_refl idx) h2'
      refine ⟨?_, ?_, ?_, rfl⟩
      · intro r hr
        rcases List.mem_cons.mp hr with hr | hr
        · rw [hr]
          simp only
          omega
        · exact p1 r hr
      · rw [List.chain'_cons']
        refine ⟨?_, p2⟩
        intro y hy
        have : (group_ranges idx (idx + 1) rest).head?.map Prod.fst = some idx := p4
        rcases hh : (group_ranges idx (idx + 1) rest).head? with _ | y'
        · rw [hh] at hy
          cases hy
        · rw [hh] at hy this
          simp at this
          cases hy
          simp only
          omega
      · intro r hr
        rcases List.mem_cons.mp hr with hr | hr
        · rw [hr]
          exact ⟨Or.inl rfl, last, Or.inl rfl, rfl⟩
        · obtain ⟨q1, j, q2, q3⟩ := p3 r hr
          refine ⟨?_, j, ?_, q3⟩
          · rcases q1 with q1 | q1
            · exact Or.inr (q1 ▸ List.mem_cons_self _ _)
            · exact Or.inr (List.mem_cons_of_mem _ q1)
          · rcases q2 with q2 | q2
            · exact Or.inr (q2 ▸ List.mem_cons_self _ _)
            · exact Or.inr (List.mem_cons_of_mem _ q2)

lemma group_ranges_consecutive (rest : List Nat) :
    ∀ (start last : Nat),
      List.Chain' (fun a b : Nat => b = a + 1) (last :: rest) →
      group_ranges start (last + 1) rest = [(start, last + 1 + rest.length)] := by
  induction rest with
  | nil => intro start last _; rfl
  | cons idx rest ih =>
    intro start last h
    rw [List.chain'_cons] at h
    obtain ⟨h1, h2⟩ := h
    rw [group_ranges, if_pos h1, ih start idx h2]
    simp only [List.length_cons, List.cons.injEq, Prod.mk.injEq, true_and, and_true]
    omega

lemma drop_take_append {α : Type} (l : List α) {a b : Nat} (h : a ≤ b) :
    (l.take b).drop a ++ l.drop b = l.drop a := by
  by_cases hb : b ≤ l.length
  · have h0 := congrArg (List.drop a) (List.take_append_drop b l)
    rw [List.drop_append_eq_append_drop, List.length_take,
      show min b l.length = b by omega, show a - b = 0 by omega, List.drop_zero] at h0
    exact h0
  · push_neg at hb
    rw [List.take_of_length_le (by omega), List.drop_eq_nil_of_le (by omega : l.length ≤ b),
      List.append_nil]

lemma reassemble_eq_drop (bytes : List UInt8) :
    ∀ (R : List (Nat × Nat)) (pos : Nat), cutsOK pos R → reassemble bytes pos R = bytes.drop pos := by
  intro R
  induction R with
  | nil => intro pos _; rfl
  | cons r rest ih =>
    intro pos hc
    rw [cutsOK] at hc
    obtain ⟨h1, h2, h3⟩ := hc
    rw [reassemble, ih r.2 h3, List.append_assoc, drop_take_append bytes h2,
      drop_take_append bytes h1]

lemma cutsOK_map (cs : List Char) (C : List (Nat × Nat)) :
    List.Chain' (fun a b : Nat × Nat => a.2 ≤ b.1) C →
    (∀ r ∈ C, r.1 ≤ r.2) →
    ∀ pos : Nat, (∀ x ∈ C.head?, pos ≤ byte_offset cs x.1) →
      cutsOK pos (C.map (fun r => (byte_offset cs r.1, byte_offset cs r.2))) := by
  induction C with
  | nil => intro _ _ pos _; trivial
  | cons r rest ih =>
    intro hch hle pos hpos
    rw [List.map_cons, cutsOK]
    rw [List.chain'_cons'] at hch
    refine ⟨hpos r rfl, byte_offset_mono cs (hle r (List.mem_cons_self _ _)), ?_⟩
    refine ih hch.2 (fun x hx => hle x (List.mem_cons_of_mem _ hx)) _ ?_
    intro x hx
    exact byte_offset_mono cs (hch.1 x hx)

lemma ranges_filterMap_eq_map (cs : List Char) (C : List (Nat × Nat))
    (h1 : ∀ r ∈ C, r.1 < cs.length) (h2 : ∀ r ∈ C, r.2 ≤ cs.length) :
    C.filterMap (fun r =>
      ((char_to_byte cs).get? r.1).map (fun byte_start =>
        (byte_start, if r.2 < (char_to_byte cs).length then (char_to_byte cs).getD r.2 0
          else (utf8Bytes cs).length))) =
    C.map (fun r => (byte_offset cs r.1, byte_offset cs r.2)) := by
  induction C with
  | nil => rfl
  | cons r rest ih =>
    rw [List.filterMap_cons_some
      (by rw [char_to_byte_get? cs (h1 r (List.mem_cons_self _ _))]; rfl)]
    rw [end_byte_eq cs (h2 r (List.mem_cons_self _ _)), List.map_cons]
    rw [ih (fun x hx => h1 x (List.mem_cons_of_mem _ hx))
      (fun x hx => h2 x (List.mem_cons_of_mem _ hx))]

/-- CLAIM C6: for every text and strictly increasing character indices
below the text's character count, the char-index-to-byte-range
conversion produces non-empty, ordered, non-overlapping byte ranges on
UTF-8 character boundaries; splitting the UTF-8 bytes at these ranges
and concatenating the pieces in order reproduces the text exactly;
consecutive character indices are merged into one contiguous range;
and `indices_to_ranges_usize` computes the same ranges as
`indices_to_ranges`. -/
theorem indices_to_ranges_round_trip
    (text : List Char) (indices : List Nat)
    (hinc : List.Chain' (· < ·) indices)
    (hbound : ∀ i ∈ indices, i < text.length) :
    (∀ r ∈ indices_to_ranges indices text, r.1 < r.2) ∧
    List.Chain' (fun a b : Nat × Nat => a.2 ≤ b.1) (indices_to_ranges indices text) ∧
    (∀ r ∈ indices_to_ranges indices text,
      r.1 ∈ char_to_byte text ∧ (r.2 ∈ char_to_byte text ∨ r.2 = (utf8Bytes text).length)) ∧
    reassemble (utf8Bytes text) 0 (indices_to_ranges indices text) = utf8Bytes text ∧
    (indices ≠ [] → List.Chain' (fun a b : Nat => b = a + 1) indices →
      (indices_to_ranges indices text).length = 1) ∧
    indices_to_ranges_usize indices text = indices_to_ranges indices text := by
  rcases indices with _ | ⟨i, rest⟩
  · refine ⟨by simp [indices_to_ranges], by simp [indices_to_ranges],
      by simp [indices_to_ranges], ?_, by simp, rfl⟩
    show reassemble (utf8Bytes text) 0 [] = utf8Bytes text
    rw [reassemble]
    exact List.drop_zero _
  · obtain ⟨hCr, hCch, hCmem, hChead⟩ := group_ranges_spec rest i i (le_refl i) hinc
    have hb1 : ∀ r ∈ group_ranges i (i + 1) rest, r.1 < text.length := by
      intro r hr
      obtain ⟨q1, _⟩ := hCmem r hr
      rcases q1 with q1 | q1
      · exact q1 ▸ hbound i (List.mem_cons_self _ _)
      · exact hbound r.1 (List.mem_cons_of_mem _ q1)
    have hb2 : ∀ r ∈ group_ranges i (i + 1) rest, r.2 ≤ text.length := by
      intro r hr
      obtain ⟨_, j, q2, q3⟩ := hCmem r hr
      have hj : j < text.length := by
        rcases q2 with q2 | q2
        · exact q2 ▸ hbound i (List.mem_cons_self _ _)
        · exact hbound j (List.mem_cons_of_mem _ q2)
      omega
    have hmap : indices_to_ranges (i :: rest) text =
        (group_ranges i (i + 1) rest).map
          (fun r => (byte_offset text r.1, byte_offset text r.2)) :=
      ranges_filterMap_eq_map text _ hb1 hb2
    have husize : indices_to_ranges_usize (i :: rest) text =
        indices_to_ranges (i :: rest) text := rfl
    rw [hmap] at husize ⊢
    refine ⟨?_, ?_, ?_, ?_, ?_, husize⟩
    · intro r hr
      obtain ⟨c, hc, rfl⟩ := List.mem_map.mp hr
      exact byte_offset_strict_mono text (hCr c hc) (hb1 c hc)
    · rw [List.chain'_map]
      exact List.Chain'.imp (fun a b hab => byte_offset_mono text hab) hCch
    · intro r hr
      obtain ⟨c, hc, rfl⟩ := List.mem_map.mp hr
      constructor
      · rw [char_to_byte]
        exact List.mem_map.mpr ⟨c.1, List.mem_range.mpr (hb1 c hc), rfl⟩
      · by_cases hce : c.2 < text.length
        · left
          rw [char_to_byte]
          exact List.mem_map.mpr ⟨c.2, List.mem_range.mpr hce, rfl⟩
        · right
          have : c.2 = text.length := by
            have := hb2 c hc
            omega
          rw [this, byte_offset_length_self]
    · rw [reassemble_eq_drop (utf8Bytes text) _ 0
        (cutsOK_map text _ hCch (fun r hr => (hCr r hr).le) 0 (fun x _ => Nat.zero_le _))]
      exact List.drop_zero _
    · intro _ hcons
      rw [group_ranges_consecutive rest i i hcons]
      rfl

/-- Closed instance for C6 at the text `['a', 'é', 'b']` and the
consecutive indices `[0, 1]`. -/
theorem indices_to_ranges_round_trip_witness :
    (∀ r ∈ indices_to_ranges [0, 1] ['a', 'é', 'b'], r.1 < r.2) ∧
    List.Chain' (fun a b : Nat × Nat => a.2 ≤ b.1)
      (indices_to_ranges [0, 1] ['a', 'é', 'b']) ∧
    (∀ r ∈ indices_to_ranges [0, 1] ['a', 'é', 'b'],
      r.1 ∈ char_to_byte ['a', 'é', 'b'] ∧
      (r.2 ∈ char_to_byte ['a', 'é', 'b'] ∨
        r.2 = (utf8Bytes ['a', 'é', 'b']).length)) ∧
    reassemble (utf8Bytes ['a', 'é', 'b']) 0 (indices_to_ranges [0, 1] ['a', 'é', 'b']) =
      utf8Bytes ['a', 'é', 'b'] ∧
    (([0, 1] : List Nat) ≠ [] → List.Chain' (fun a b : Nat => b = a + 1) [0, 1] →
      (indices_to_ranges [0, 1] ['a', 'é', 'b']).length = 1) ∧
    indices_to_ranges_usize [0, 1] ['a', 'é', 'b'] =
      indices_to_ranges [0, 1] ['a', 'é', 'b'] :=
  indices_to_ranges_round_trip ['a', 'é', 'b'] [0, 1]
    (by simp [List.chain'_cons]) (by decide)

end CommandPalette
